import Mathlib

/-!
# Verification of the time-tracker core

A shallow embedding of the session-tracking and time-aggregation engine of
`time_tracker_app.py`: the persistent store (activities, time entries, habit
logs), the ledger write path (`add_time_entry`), the aggregation queries
(`calculate_average_duration`, `calculate_total_duration_for_activity_branch`,
`calculate_average_session_times`, `get_descendant_activity_ids`), the cascade
delete (`delete_activity`), and the in-memory tracking session engine
(`start_selected_tasks`, `start_selected_countdowns`, `handle_pause_request`,
`handle_resume_request`, `stop_single_task`, `update_timer`).

Wall-clock instants and float accumulators are modelled as rationals; SQLite
INTEGER columns as `Int`; Python `int()` truncation as `ratTrunc`.
-/

/-- Python `int()` on a float/rational: truncation toward zero. -/
def ratTrunc (q : ℚ) : Int := if 0 ≤ q then ⌊q⌋ else ⌈q⌉

/-- A row of the `activities` table (columns used by the core):
`id`, `name`, `parent_id`, and the habit configuration column `habit_type`
(NULL when the activity is not a habit). -/
structure Activity where
  id : Nat
  name : String
  parent_id : Option Nat
  habit_type : Option Int
  deriving Repr, DecidableEq

/-- A row of the `time_entries` table: `activity_id`, `duration_seconds`
(INTEGER), `entry_type` (`'work'` or `'break'`), `session_id` (REAL, NULL
when the entry is not part of a tracked session). -/
structure TimeEntry where
  activity_id : Nat
  duration_seconds : Int
  entry_type : String
  session_id : Option ℚ
  deriving Repr, DecidableEq

/-- A row of the `habit_logs` table (only the foreign key matters for the
cascade-delete claims). -/
structure HabitLog where
  activity_id : Nat
  log_date : String
  value : ℚ
  deriving Repr, DecidableEq

/-- The persistent store: the three tables of the SQLite database. -/
structure Store where
  activities : List Activity
  time_entries : List TimeEntry
  habit_logs : List HabitLog
  deriving Repr, DecidableEq

/-- `DatabaseManager.add_time_entry`: rejects a negative duration (guard
`duration_seconds < 0`), truncates the duration with `int(...)`, normalizes an
invalid `entry_type` to `'work'`, and inserts the row.  The INSERT fails (the
FOREIGN KEY constraint on `activity_id`) when the activity does not exist, in
which case the transaction is rolled back and `False` is returned; `none`
models the `False` return, `some` the committed insert. -/
def add_time_entry (s : Store) (activity_id : Nat) (duration_seconds : ℚ)
    (entry_type : String) (session_id : Option ℚ) : Option Store :=
  if duration_seconds < 0 then none
  else
    let d : Int := ratTrunc duration_seconds
    let et : String := if entry_type = "work" ∨ entry_type = "break" then entry_type else "work"
    if s.activities.any (fun a => a.id = activity_id) then
      some { s with time_entries :=
               s.time_entries ++ [⟨activity_id, d, et, session_id⟩] }
    else none

/-- `DatabaseManager.get_durations`: durations of the entries of exactly this
activity.  The Python guard `not activity_id` makes id `0` (falsy) return `[]`. -/
def get_durations (s : Store) (activity_id : Nat) : List Int :=
  if activity_id = 0 then []
  else (s.time_entries.filter (fun e => e.activity_id = activity_id)).map
    (fun e => e.duration_seconds)

/-- `DatabaseManager.calculate_average_duration`:
`sum(durations) / len(durations) if durations else 0`. -/
def calculate_average_duration (s : Store) (activity_id : Nat) : ℚ :=
  let durations := get_durations s activity_id
  if durations = [] then 0
  else (durations.map (fun d => (d : ℚ))).sum / (durations.length : ℚ)

/-- The child query of the BFS: `SELECT id FROM activities WHERE parent_id = ?`. -/
def children_ids (acts : List Activity) (pid : Nat) : List Nat :=
  (acts.filter (fun a => a.parent_id = some pid)).map (fun a => a.id)

/-- The set of activity ids (used for the termination measure of the BFS). -/
def actIds (acts : List Activity) : Finset Nat := (acts.map (fun a => a.id)).toFinset

/-- Termination measure for the BFS worklist loop: ids that can still be
visited, weighted by the maximal number of children pushed per step, plus the
current queue length. -/
def bfsMeasure (acts : List Activity) (queue visited : List Nat) : Nat :=
  ((actIds acts ∪ queue.toFinset) \ visited.toFinset).card * (acts.length + 1)
    + queue.length

/-- The worklist loop of `DatabaseManager.get_descendant_activity_ids`:
pop the head of the queue, skip it if already visited, otherwise mark it
visited and push its not-yet-visited children. -/
def bfsGo (acts : List Activity) (queue visited : List Nat) : List Nat :=
  match queue with
  | [] => visited
  | q :: rest =>
    if q ∈ visited then bfsGo acts rest visited
    else bfsGo acts
      (rest ++ (children_ids acts q).filter (fun c => decide (c ∉ q :: visited)))
      (q :: visited)
termination_by bfsMeasure acts queue visited
decreasing_by
  · -- the popped id was already visited: the unvisited set does not grow and
    -- the queue shrinks by one
    simp only [bfsMeasure]
    have hsub : (actIds acts ∪ rest.toFinset) \ visited.toFinset ⊆
        (actIds acts ∪ (q :: rest).toFinset) \ visited.toFinset := by
      intro x hx
      simp only [Finset.mem_sdiff, Finset.mem_union, List.toFinset_cons,
        Finset.mem_insert] at hx ⊢
      tauto
    have hcard := Finset.card_le_card hsub
    simp only [List.length_cons]
    have : ((actIds acts ∪ rest.toFinset) \ visited.toFinset).card * (acts.length + 1) ≤
        ((actIds acts ∪ (q :: rest).toFinset) \ visited.toFinset).card * (acts.length + 1) :=
      Nat.mul_le_mul_right _ hcard
    omega
  · -- the popped id is newly visited: the unvisited set strictly shrinks,
    -- and at most `acts.length` children are pushed
    rename_i hq
    simp only [bfsMeasure]
    have hchild : ∀ c ∈ (children_ids acts q).filter (fun c => decide (c ∉ q :: visited)),
        c ∈ actIds acts := by
      intro c hc
      have h := List.mem_of_mem_filter hc
      simp only [children_ids, List.mem_map, List.mem_filter] at h
      obtain ⟨a, ⟨ha, _⟩, rfl⟩ := h
      simp only [actIds, List.mem_toFinset, List.mem_map]
      exact ⟨a, ha, rfl⟩
    have hsub : (actIds acts ∪
          (rest ++ (children_ids acts q).filter (fun c => decide (c ∉ q :: visited))).toFinset) \
          (q :: visited).toFinset ⊆
        (((actIds acts ∪ (q :: rest).toFinset) \ visited.toFinset).erase q) := by
      intro x hx
      simp only [Finset.mem_sdiff, Finset.mem_union, List.toFinset_append,
        List.toFinset_cons, Finset.mem_insert, Finset.mem_union, Finset.mem_erase] at hx ⊢
      obtain ⟨hmem, hnv⟩ := hx
      refine ⟨fun hxq => hnv (by simp [hxq]), ?_, fun hv => hnv (by simp [hv])⟩
      rcases hmem with h | h | h
      · exact Or.inl h
      · exact Or.inr (Or.inr (by simpa using h))
      · exact Or.inl (hchild x (by simpa using h))
    have hqin : q ∈ (actIds acts ∪ (q :: rest).toFinset) \ visited.toFinset := by
      simp [hq]
    have hlt : ((actIds acts ∪
          (rest ++ (children_ids acts q).filter (fun c => decide (c ∉ q :: visited))).toFinset) \
          (q :: visited).toFinset).card <
        ((actIds acts ∪ (q :: rest).toFinset) \ visited.toFinset).card := by
      calc ((actIds acts ∪
              (rest ++ (children_ids acts q).filter (fun c => decide (c ∉ q :: visited))).toFinset) \
              (q :: visited).toFinset).card
          ≤ (((actIds acts ∪ (q :: rest).toFinset) \ visited.toFinset).erase q).card :=
            Finset.card_le_card hsub
        _ < ((actIds acts ∪ (q :: rest).toFinset) \ visited.toFinset).card :=
            Finset.card_erase_lt_of_mem hqin
    have hflen : ((children_ids acts q).filter (fun c => decide (c ∉ q :: visited))).length ≤
        acts.length := by
      refine le_trans (List.length_filter_le _ _) ?_
      simpa [children_ids] using List.length_filter_le _ acts
    simp only [List.length_append, List.length_cons]
    have h1 : ((actIds acts ∪
          (rest ++ (children_ids acts q).filter (fun c => decide (c ∉ q :: visited))).toFinset) \
          (q :: visited).toFinset).card + 1 ≤
        ((actIds acts ∪ (q :: rest).toFinset) \ visited.toFinset).card := hlt
    have h2 : (((actIds acts ∪
          (rest ++ (children_ids acts q).filter (fun c => decide (c ∉ q :: visited))).toFinset) \
          (q :: visited).toFinset).card + 1) * (acts.length + 1) ≤
        ((actIds acts ∪ (q :: rest).toFinset) \ visited.toFinset).card * (acts.length + 1) :=
      Nat.mul_le_mul_right _ h1
    nlinarith [hflen, h2]

/-- `DatabaseManager.get_descendant_activity_ids`: BFS over the
parent→children adjacency, starting from `activity_id`; returns the set of
visited ids (the activity itself included). -/
def get_descendant_activity_ids (s : Store) (activity_id : Nat) : List Nat :=
  bfsGo s.activities [activity_id] []

/-- `DatabaseManager.calculate_total_duration_for_activity_branch`:
`SUM(duration_seconds)` over entries whose activity is in the descendant set;
`0` when the set is empty (or the falsy-id guard fires). -/
def calculate_total_duration_for_activity_branch (s : Store) (activity_id : Nat) : Int :=
  if activity_id = 0 then 0
  else
    let descendant_ids := get_descendant_activity_ids s activity_id
    if descendant_ids = [] then 0
    else ((s.time_entries.filter (fun e => decide (e.activity_id ∈ descendant_ids))).map
      (fun e => e.duration_seconds)).sum

/-- One row of the CTE `SessionDurations` of
`DatabaseManager.calculate_average_session_times`: for one `session_id` group,
`SUM(CASE WHEN entry_type = 'work' THEN duration_seconds ELSE 0 END)` and the
same for `'break'`. -/
def sessionGroupSums (rows : List TimeEntry) : Int × Int :=
  ((rows.map (fun e => if e.entry_type = "work" then e.duration_seconds else 0)).sum,
   (rows.map (fun e => if e.entry_type = "break" then e.duration_seconds else 0)).sum)

/-- The grouped rows of the CTE: entries of the activity with a non-NULL
`session_id`, grouped by that id (`GROUP BY session_id`). -/
def sessionGroups (s : Store) (activity_id : Nat) : List (Int × Int) :=
  let relevant := s.time_entries.filter
    (fun e => e.activity_id = activity_id ∧ e.session_id ≠ none)
  let keys := (relevant.map (fun e => e.session_id)).dedup
  keys.map (fun sid => sessionGroupSums (relevant.filter (fun e => e.session_id = sid)))

/-- `DatabaseManager.calculate_average_session_times`: groups by session id,
keeps the groups passing `HAVING work_duration > 0 OR break_duration > 0`, and
returns `(AVG(work), AVG(break), AVG(work + break))`, or `(0, 0, 0)` when no
group remains (the outer Python code maps a NULL `AVG` to `(0, 0, 0)`).  The
Python guard `not activity_id` makes id `0` return `(0, 0, 0)`. -/
def calculate_average_session_times (s : Store) (activity_id : Nat) : ℚ × ℚ × ℚ :=
  if activity_id = 0 then (0, 0, 0)
  else
    let kept := (sessionGroups s activity_id).filter (fun g => 0 < g.1 ∨ 0 < g.2)
    if kept = [] then (0, 0, 0)
    else ((kept.map (fun g => (g.1 : ℚ))).sum / (kept.length : ℚ),
          (kept.map (fun g => (g.2 : ℚ))).sum / (kept.length : ℚ),
          (kept.map (fun g => ((g.1 + g.2 : Int) : ℚ))).sum / (kept.length : ℚ))

/-- Modelled from the spec's words for `averageSessionComposition` (the
refinement counterpart of `calculate_average_session_times`): group the
activity's entries carrying a non-null `session_id` by that id, sum work and
break durations per group, discard every group whose work+break sum is zero,
and return the mean work, mean break, and mean work+break duration over the
remaining groups, or `(0, 0, 0)` when none remain. -/
def averageSessionComposition_specModel (s : Store) (activity_id : Nat) : ℚ × ℚ × ℚ :=
  let kept := (sessionGroups s activity_id).filter (fun g => g.1 + g.2 ≠ 0)
  if kept = [] then (0, 0, 0)
  else ((kept.map (fun g => (g.1 : ℚ))).sum / (kept.length : ℚ),
        (kept.map (fun g => (g.2 : ℚ))).sum / (kept.length : ℚ),
        (kept.map (fun g => ((g.1 + g.2 : Int) : ℚ))).sum / (kept.length : ℚ))

/-- `DatabaseManager.delete_activity`: computes the descendant set, then runs
one `DELETE FROM activities WHERE id IN (...)` inside a transaction.  SQLite's
declared foreign-key actions fire with it: `time_entries` and `habit_logs`
rows whose `activity_id` is among the deleted rows are removed
(`ON DELETE CASCADE`), and a surviving activity whose parent was deleted gets
`parent_id = NULL` (`ON DELETE SET NULL`).  `none` models the `False` return
(falsy id, empty descendant set, or an error, after which the transaction is
rolled back and the store unchanged); `some` the committed delete. -/
def delete_activity (s : Store) (activity_id : Nat) : Option Store :=
  if activity_id = 0 then none
  else
    let descendant_ids := get_descendant_activity_ids s activity_id
    if descendant_ids = [] then none
    else
      let deletedIds := (s.activities.filter
        (fun a => decide (a.id ∈ descendant_ids))).map (fun a => a.id)
      some
        { activities :=
            (s.activities.filter (fun a => decide (a.id ∉ descendant_ids))).map
              (fun a => match a.parent_id with
                | some p => if p ∈ deletedIds then { a with parent_id := none } else a
                | none => a),
          time_entries :=
            s.time_entries.filter (fun e => decide (e.activity_id ∉ deletedIds)),
          habit_logs :=
            s.habit_logs.filter (fun h => decide (h.activity_id ∉ deletedIds)) }

/-- `DatabaseManager.get_activity_habit_config`, restricted to the habit type
column (the only part the session engine consumes). -/
def get_activity_habit_type (s : Store) (activity_id : Nat) : Option Int :=
  if activity_id = 0 then none
  else match s.activities.find? (fun a => a.id = activity_id) with
    | some a => a.habit_type
    | none => none

/-- `TimerWindow.STATE_TRACKING` / `TimerWindow.STATE_PAUSED`. -/
inductive TimerState where
  | tracking
  | paused
  deriving Repr, DecidableEq

/-- One value of `MainWindow.active_timer_windows` (the per-activity task
dictionary), minus the Qt widget handle.  Work tasks have no
`'target_duration'` key; `task_data.get('target_duration', 0)` defaults to
`0`, which is the value stored here for them. -/
structure TrackingTask where
  state : TimerState
  current_interval_start_time : ℚ
  total_session_work_sec : ℚ
  total_session_break_sec : ℚ
  session_id : ℚ
  activity_name : String
  is_countdown : Bool
  target_duration : Int
  deriving Repr, DecidableEq

/-- The in-process application state the session engine mutates: the active
task dictionary (an insertion-ordered association list keyed by activity id),
the `QTimer` running flag, and the database. -/
structure AppState where
  active : List (Nat × TrackingTask)
  qtimer_active : Bool
  store : Store
  deriving Repr, DecidableEq

/-- Dictionary lookup in `active_timer_windows`. -/
def lookupTask (aid : Nat) : List (Nat × TrackingTask) → Option TrackingTask
  | [] => none
  | (b, t) :: rest => if aid = b then some t else lookupTask aid rest

/-- In-place update of one key of `active_timer_windows`. -/
def updateTask (aid : Nat) (t : TrackingTask) (l : List (Nat × TrackingTask)) :
    List (Nat × TrackingTask) :=
  l.map (fun p => if p.1 = aid then (aid, t) else p)

/-- `active_timer_windows.pop(aid)`. -/
def removeTask (aid : Nat) (l : List (Nat × TrackingTask)) : List (Nat × TrackingTask) :=
  l.filter (fun p => decide (p.1 ≠ aid))

/-- Result of `MainWindow.start_selected_tasks` /
`start_selected_countdowns`: the new application state, whether the
mode-conflict "Timer Busy" warning was shown, and the ids skipped because a
task for them was already running (each skip is logged). -/
structure StartResult where
  state : AppState
  mode_conflict : Bool
  skipped_existing : List Nat
  deriving Repr, DecidableEq

/-- The per-selection loop of `start_selected_tasks`: skip an activity that is
already running, otherwise create a fresh TRACKING work task
(`session_id = current_interval_start_time = now`, zero accumulators,
`is_countdown = False`). -/
def startTasksLoop (now : ℚ) (sel : List (Nat × String))
    (active : List (Nat × TrackingTask)) (skipped : List Nat) :
    List (Nat × TrackingTask) × List Nat :=
  match sel with
  | [] => (active, skipped)
  | (aid, name) :: rest =>
    match lookupTask aid active with
    | some _ => startTasksLoop now rest active (skipped ++ [aid])
    | none =>
      startTasksLoop now rest
        (active ++ [(aid, ⟨TimerState.tracking, now, 0, 0, now, name, false, 0⟩)]) skipped

/-- `MainWindow.start_selected_tasks`: refused outright (with a "Timer Busy"
warning) while any countdown task is active; otherwise starts a work task for
every selected activity that has none, and starts the global QTimer when at
least one task was added. -/
def start_selected_tasks (now : ℚ) (sel : List (Nat × String)) (st : AppState) :
    StartResult :=
  if st.active.any (fun p => p.2.is_countdown) then ⟨st, true, []⟩
  else if sel = [] then ⟨st, false, []⟩
  else
    let r := startTasksLoop now sel st.active []
    let num_added := r.1.length - st.active.length
    let qt := if num_added > 0 then true else st.qtimer_active
    ⟨{ st with active := r.1, qtimer_active := qt }, false, r.2⟩

/-- The per-selection loop of `start_selected_countdowns`: skip an activity
that is already running; otherwise a countdown task is created only when
`calculate_average_duration` is positive, with
`target_duration = int(average_duration)` captured once at start. -/
def startCountdownsLoop (now : ℚ) (s : Store) (sel : List (Nat × String))
    (active : List (Nat × TrackingTask)) (skipped : List Nat) :
    List (Nat × TrackingTask) × List Nat :=
  match sel with
  | [] => (active, skipped)
  | (aid, name) :: rest =>
    match lookupTask aid active with
    | some _ => startCountdownsLoop now s rest active (skipped ++ [aid])
    | none =>
      let average_duration := calculate_average_duration s aid
      if 0 < average_duration then
        startCountdownsLoop now s rest
          (active ++ [(aid, ⟨TimerState.tracking, now, 0, 0, now, name, true,
            ratTrunc average_duration⟩)]) skipped
      else startCountdownsLoop now s rest active skipped

/-- `MainWindow.start_selected_countdowns`: refused outright (with a "Timer
Busy" warning) while any plain-work task is active; otherwise starts countdown
tasks for the selected activities with a positive average duration. -/
def start_selected_countdowns (now : ℚ) (sel : List (Nat × String)) (st : AppState) :
    StartResult :=
  if st.active.any (fun p => !p.2.is_countdown) then ⟨st, true, []⟩
  else if sel = [] then ⟨st, false, []⟩
  else
    let r := startCountdownsLoop now st.store sel st.active []
    let num_added := r.1.length - st.active.length
    let qt := if num_added > 0 then true else st.qtimer_active
    ⟨{ st with active := r.1, qtimer_active := qt }, false, r.2⟩

/-- `MainWindow.handle_pause_request`: valid only from TRACKING; folds the
elapsed work interval into `total_session_work_sec`, persists a `work` entry of
`int(elapsed)` seconds tagged with the session id when the interval lasted at
least one second (a failed insert leaves the store unchanged but the
accumulator updated), then transitions to PAUSED with the break interval
starting now.  Requests for unknown or non-TRACKING tasks are logged and
ignored. -/
def handle_pause_request (now : ℚ) (aid : Nat) (st : AppState) : AppState :=
  match lookupTask aid st.active with
  | none => st
  | some task =>
    match task.state with
    | TimerState.paused => st
    | TimerState.tracking =>
      let work_duration := now - task.current_interval_start_time
      let task' := { task with
        total_session_work_sec := task.total_session_work_sec + work_duration,
        state := TimerState.paused,
        current_interval_start_time := now }
      let store' :=
        if 1 ≤ work_duration then
          match add_time_entry st.store aid (ratTrunc work_duration : Int) "work"
              (some task.session_id) with
          | some s' => s'
          | none => st.store
        else st.store
      { st with active := updateTask aid task' st.active, store := store' }

/-- `MainWindow.handle_resume_request`: valid only from PAUSED; symmetric to
pause for break time. -/
def handle_resume_request (now : ℚ) (aid : Nat) (st : AppState) : AppState :=
  match lookupTask aid st.active with
  | none => st
  | some task =>
    match task.state with
    | TimerState.tracking => st
    | TimerState.paused =>
      let break_duration := now - task.current_interval_start_time
      let task' := { task with
        total_session_break_sec := task.total_session_break_sec + break_duration,
        state := TimerState.tracking,
        current_interval_start_time := now }
      let store' :=
        if 1 ≤ break_duration then
          match add_time_entry st.store aid (ratTrunc break_duration : Int) "break"
              (some task.session_id) with
          | some s' => s'
          | none => st.store
        else st.store
      { st with active := updateTask aid task' st.active, store := store' }

/-- Result of `MainWindow.stop_single_task`: the new application state, the
session's final total work seconds (`final_total_session_work_sec`, which
includes the last work interval when the task was still TRACKING and the
interval was kept), and the Habit Completion Bridge invocation
(`prompt_and_log_habit_after_timer(activity_id, ..., work_duration_seconds)`),
`none` when the bridge was not invoked. -/
structure StopResult where
  state : AppState
  final_total_session_work_sec : ℚ
  habit_call : Option (Nat × Int)
  deriving Repr, DecidableEq

/-- `MainWindow.stop_single_task`: removes the task; if `save_entry`, persists
the final interval (`work` if TRACKING, `break` if PAUSED) when it lasted at
least one second, folding a final work interval into the session work total;
invokes the habit bridge exactly when `save_entry` holds, the activity is
configured as a habit, and the final work total truncates to at least one
second; stops the global QTimer when no task remains. -/
def stop_single_task (now : ℚ) (aid : Nat) (save_entry : Bool) (st : AppState) :
    StopResult :=
  match lookupTask aid st.active with
  | none =>
    ⟨{ st with qtimer_active := if st.active = [] then false else st.qtimer_active }, 0, none⟩
  | some task =>
    let active' := removeTask aid st.active
    let last_interval_duration := now - task.current_interval_start_time
    let duration_of_final_segment_for_db : Int := ratTrunc last_interval_duration
    let final_total_session_work_sec :=
      if save_entry ∧ task.state = TimerState.tracking then
        task.total_session_work_sec + last_interval_duration
      else task.total_session_work_sec
    let store' :=
      if save_entry ∧ 1 ≤ duration_of_final_segment_for_db then
        let et := if task.state = TimerState.tracking then "work" else "break"
        match add_time_entry st.store aid (duration_of_final_segment_for_db : Int) et
            (some task.session_id) with
        | some s' => s'
        | none => st.store
      else st.store
    let habit_type := get_activity_habit_type st.store aid
    let is_configured_as_habit := habit_type ≠ none ∧ habit_type ≠ some 0
    let relevant_work_duration_for_habit_prompt : Int :=
      ratTrunc final_total_session_work_sec
    let habit_call :=
      if save_entry ∧ is_configured_as_habit ∧ 1 ≤ relevant_work_duration_for_habit_prompt then
        some (aid, relevant_work_duration_for_habit_prompt)
      else none
    ⟨{ active := active',
       qtimer_active := if active' = [] then false else st.qtimer_active,
       store := store' }, final_total_session_work_sec, habit_call⟩

/-- The display value `MainWindow.update_timer` recomputes for one task:
for a TRACKING countdown task, the signed remaining time
(`target - (work_total + current_interval)`), the overrun flag and the overrun
seconds shown in red; for a TRACKING work task, the current interval and the
session total; for a PAUSED task, the current break interval and the break
total. -/
inductive TickInfo where
  | countdown (remaining : ℚ) (is_overrun : Bool) (overrun_seconds : ℚ) (total_session : ℚ)
  | work (current_interval : ℚ) (total_session : ℚ)
  | pausedDisp (current_break : ℚ) (total_break : ℚ)
  deriving Repr, DecidableEq

/-- The per-task display computation of `update_timer`. -/
def tickInfoFor (now : ℚ) (task : TrackingTask) : TickInfo :=
  match task.state with
  | TimerState.tracking =>
    let current_interval_sec := now - task.current_interval_start_time
    let total_session_sec := task.total_session_work_sec + current_interval_sec
    if task.is_countdown then
      let remaining := (task.target_duration : ℚ) - total_session_sec
      if remaining < 0 then
        TickInfo.countdown remaining true |remaining| total_session_sec
      else TickInfo.countdown remaining false 0 total_session_sec
    else TickInfo.work current_interval_sec total_session_sec
  | TimerState.paused =>
    let current_break_interval_sec := now - task.current_interval_start_time
    TickInfo.pausedDisp current_break_interval_sec
      (task.total_session_break_sec + current_break_interval_sec)

/-- `MainWindow.update_timer` (the periodic tick): returns immediately when
the QTimer is not active; stops the QTimer when no task is active; otherwise
recomputes the display values of every active task without touching the task
dictionary or the database. -/
def update_timer (now : ℚ) (st : AppState) : AppState × List (Nat × TickInfo) :=
  if st.qtimer_active = false then (st, [])
  else if st.active = [] then ({ st with qtimer_active := false }, [])
  else (st, st.active.map (fun p => (p.1, tickInfoFor now p.2)))

/-- The parent→child edge relation of the activity hierarchy: `b` is a direct
child of `a` (a row of `activities` has id `b` and `parent_id = a`). -/
def childRel (acts : List Activity) (a b : Nat) : Prop := b ∈ children_ids acts a

/-- `b` is in the descendant subtree of `a` (the reflexive-transitive closure
of the child relation). -/
def reaches (acts : List Activity) : Nat → Nat → Prop :=
  Relation.ReflTransGen (childRel acts)

/-- The activity hierarchy is acyclic: no id is a proper descendant of
itself. -/
def AcyclicActivities (acts : List Activity) : Prop :=
  ∀ x, ¬ Relation.TransGen (childRel acts) x x

/-- A decidable certificate of acyclicity: a rank function that strictly
increases from parent to child on every row. -/
def rankDescends (acts : List Activity) (rank : Nat → Nat) : Bool :=
  acts.all (fun a => match a.parent_id with
    | none => true
    | some p => decide (rank p < rank a.id))

/-- All concurrently active tasks are homogeneous in mode: every pair agrees
on `is_countdown`. -/
def Homogeneous (st : AppState) : Prop :=
  ∀ p ∈ st.active, ∀ q ∈ st.active, p.2.is_countdown = q.2.is_countdown

/-- The application state at startup: no active task, QTimer stopped. -/
def initState (s : Store) : AppState := ⟨[], false, s⟩

/-- One engine transition: any of the task-affecting operations the UI can
invoke, plus an arbitrary database edit (the entry/activity management
dialogs, which touch the store but never the task dictionary). -/
inductive EngineStep : AppState → AppState → Prop where
  | startTasks (now : ℚ) (sel : List (Nat × String)) (st : AppState) :
      EngineStep st (start_selected_tasks now sel st).state
  | startCountdowns (now : ℚ) (sel : List (Nat × String)) (st : AppState) :
      EngineStep st (start_selected_countdowns now sel st).state
  | pauseReq (now : ℚ) (aid : Nat) (st : AppState) :
      EngineStep st (handle_pause_request now aid st)
  | resumeReq (now : ℚ) (aid : Nat) (st : AppState) :
      EngineStep st (handle_resume_request now aid st)
  | stopTask (now : ℚ) (aid : Nat) (save_entry : Bool) (st : AppState) :
      EngineStep st (stop_single_task now aid save_entry st).state
  | tick (now : ℚ) (st : AppState) :
      EngineStep st (update_timer now st).1
  | storeEdit (s' : Store) (st : AppState) :
      EngineStep st { st with store := s' }

/-- A state the running application can be in: reachable from some startup
state by engine transitions. -/
def ReachableState (st : AppState) : Prop :=
  ∃ s0 : Store, Relation.ReflTransGen EngineStep (initState s0) st

theorem ratTrunc_intCast (n : Int) : ratTrunc (n : ℚ) = n := by
  unfold ratTrunc
  split <;> simp

theorem ratTrunc_eq_floor {q : ℚ} (h : 0 ≤ q) : ratTrunc q = ⌊q⌋ := by
  simp [ratTrunc, h]

theorem one_le_ratTrunc {q : ℚ} (h : 1 ≤ q) : 1 ≤ ratTrunc q := by
  rw [ratTrunc_eq_floor (le_trans zero_le_one h)]
  exact Int.le_floor.mpr (by exact_mod_cast h)

theorem lookupTask_mem {aid : Nat} {l : List (Nat × TrackingTask)} {t : TrackingTask}
    (h : lookupTask aid l = some t) : (aid, t) ∈ l := by
  induction l with
  | nil => simp [lookupTask] at h
  | cons p rest ih =>
    obtain ⟨b, t0⟩ := p
    rw [lookupTask] at h
    split at h
    · rename_i hb
      injection h with h
      subst hb
      subst h
      exact List.mem_cons_self _ _
    · exact List.mem_cons_of_mem _ (ih h)

theorem lookupTask_updateTask_self {aid : Nat} {l : List (Nat × TrackingTask)}
    {t0 t : TrackingTask} (h : lookupTask aid l = some t0) :
    lookupTask aid (updateTask aid t l) = some t := by
  induction l with
  | nil => simp [lookupTask] at h
  | cons p rest ih =>
    obtain ⟨b, tb⟩ := p
    rw [lookupTask] at h
    simp only [updateTask, List.map_cons]
    by_cases hb : aid = b
    · subst hb
      rw [if_pos rfl, lookupTask, if_pos rfl]
    · rw [if_neg hb] at h
      rw [if_neg (fun hc : b = aid => hb hc.symm), lookupTask, if_neg hb]
      exact ih h

theorem lookupTask_updateTask_ne {b aid : Nat} {l : List (Nat × TrackingTask)}
    {t : TrackingTask} (hne : b ≠ aid) :
    lookupTask b (updateTask aid t l) = lookupTask b l := by
  induction l with
  | nil => rfl
  | cons p rest ih =>
    obtain ⟨c, tc⟩ := p
    simp only [updateTask, List.map_cons] at ih ⊢
    by_cases hc : c = aid
    · subst hc
      rw [if_pos rfl, lookupTask, lookupTask, if_neg hne, if_neg hne]
      exact ih
    · rw [if_neg hc, lookupTask, lookupTask]
      by_cases hbc : b = c
      · rw [if_pos hbc, if_pos hbc]
      · rw [if_neg hbc, if_neg hbc]
        exact ih

/-- C10: `tick()` (`update_timer`) never writes to the ledger or the
persistent store and never mutates any task's state, accumulators, session id
or interval start: the task dictionary and the store are unchanged, and a
second tick from the resulting state changes nothing at all, so any number of
ticks between two transitions leaves engine state and persisted data identical
to a single tick or none. -/
theorem update_timer_side_effect_free (now now' : ℚ) (st : AppState) :
    (update_timer now st).1.active = st.active ∧
    (update_timer now st).1.store = st.store ∧
    (update_timer now' (update_timer now st).1).1 = (update_timer now st).1 := by
  unfold update_timer
  rcases st with ⟨active, qt, store⟩
  by_cases hqt : qt = false <;> by_cases hact : active = ([] : List (Nat × TrackingTask)) <;>
    simp [hqt, hact]

/-- C3 (counterexample): `add_time_entry` accepts a duration of `0` — on a
store holding activity `1` with no entries, `add_time_entry(1, 0, 'work')`
returns `True` and creates a `TimeEntry` row with `duration_seconds = 0`,
contradicting "duration_seconds <= 0 is rejected and a duration-0 row is never
created". -/
theorem add_time_entry_zero_accepted :
    add_time_entry ⟨[⟨1, "A", none, none⟩], [], []⟩ 1 0 "work" none =
      some ⟨[⟨1, "A", none, none⟩], [⟨1, 0, "work", none⟩], []⟩ := by
  decide

/-- C3 (amended): the ledger append rejects every strictly negative duration
(no row is created, a `False`/ValidationError outcome); but a duration of
exactly `0` passes the `duration_seconds < 0` guard and, for an existing
activity, commits a row with `duration_seconds = 0`. -/
theorem add_time_entry_negative_rejected (s : Store) (aid : Nat) (d : ℚ)
    (et : String) (sid : Option ℚ) (hneg : d < 0)
    (hex : s.activities.any (fun a => a.id = aid) = true) :
    add_time_entry s aid d et sid = none ∧
    ∃ s', add_time_entry s aid 0 et sid = some s' ∧
      s'.time_entries = s.time_entries ++
        [⟨aid, 0, if et = "work" ∨ et = "break" then et else "work", sid⟩] := by
  refine ⟨by simp [add_time_entry, hneg], ?_⟩
  have hz : add_time_entry s aid 0 et sid = some { s with time_entries :=
      s.time_entries ++ [⟨aid, 0, if et = "work" ∨ et = "break" then et else "work", sid⟩] } := by
    unfold add_time_entry
    rw [if_neg (by norm_num)]
    have h0 : ratTrunc 0 = 0 := by simp [ratTrunc]
    simp [hex, h0]
  exact ⟨_, hz, rfl⟩

/-- C3 (witness for the amended theorem): instantiated at duration `-1` on a
one-activity store. -/
theorem add_time_entry_negative_rejected_witness :
    ((-1 : ℚ) < 0 ∧
      (Store.mk [⟨1, "A", none, none⟩] [] []).activities.any (fun a => a.id = 1) = true) ∧
    add_time_entry ⟨[⟨1, "A", none, none⟩], [], []⟩ 1 (-1) "work" none = none := by
  refine ⟨⟨by norm_num, by decide⟩, ?_⟩
  exact (add_time_entry_negative_rejected ⟨[⟨1, "A", none, none⟩], [], []⟩ 1 (-1) "work" none
    (by norm_num) (by decide)).1

/-- C2: for a task in state TRACKING, `pause(activity_id)` computes
`elapsed = now - current_interval_start`, adds `elapsed` to the work
accumulator, appends one `work` ledger entry of `floor(elapsed)` seconds
tagged with the task's session id if and only if `elapsed ≥ 1` second
(sub-second intervals are never persisted), transitions the task to PAUSED
and resets `current_interval_start` to `now`.  (`hfk`: the activity row
exists, so the INSERT does not hit the foreign-key failure path.) -/
theorem handle_pause_request_spec (st : AppState) (now : ℚ) (aid : Nat)
    (task : TrackingTask)
    (hlook : lookupTask aid st.active = some task)
    (htrack : task.state = TimerState.tracking)
    (hfk : st.store.activities.any (fun a => a.id = aid) = true) :
    lookupTask aid (handle_pause_request now aid st).active = some
      { task with
        total_session_work_sec :=
          task.total_session_work_sec + (now - task.current_interval_start_time),
        state := TimerState.paused,
        current_interval_start_time := now } ∧
    (handle_pause_request now aid st).store.time_entries =
      st.store.time_entries ++
        (if 1 ≤ now - task.current_interval_start_time then
          [⟨aid, ⌊now - task.current_interval_start_time⌋, "work", some task.session_id⟩]
        else []) := by
  unfold handle_pause_request
  simp only [hlook, htrack]
  constructor
  · exact lookupTask_updateTask_self hlook
  · by_cases h1 : 1 ≤ now - task.current_interval_start_time
    · rw [if_pos h1, if_pos h1]
      have h0 : (0 : ℚ) ≤ now - task.current_interval_start_time :=
        le_trans zero_le_one h1
      have htr : ratTrunc (now - task.current_interval_start_time) =
          ⌊now - task.current_interval_start_time⌋ := ratTrunc_eq_floor h0
      have hnn : ¬ ((ratTrunc (now - task.current_interval_start_time) : ℚ) < 0) := by
        rw [htr]
        push_neg
        exact_mod_cast Int.floor_nonneg.mpr h0
      unfold add_time_entry
      rw [if_neg hnn]
      simp [hfk, ratTrunc_intCast, htr]
    · rw [if_neg h1, if_neg h1]
      simp

/-- C2 (witness): a concrete TRACKING task paused after 61.5 seconds:
the accumulator gains 61.5, the persisted entry is 61 seconds. -/
theorem handle_pause_request_spec_witness :
    (lookupTask 1
        [(1, ⟨TimerState.tracking, 100, 0, 0, 100, "A", false, 0⟩)] =
        some ⟨TimerState.tracking, 100, 0, 0, 100, "A", false, 0⟩ ∧
      (Store.mk [⟨1, "A", none, none⟩] [] []).activities.any (fun a => a.id = 1) = true) ∧
    (lookupTask 1 (handle_pause_request (323/2) 1
        ⟨[(1, ⟨TimerState.tracking, 100, 0, 0, 100, "A", false, 0⟩)], true,
          ⟨[⟨1, "A", none, none⟩], [], []⟩⟩).active = some
      ⟨TimerState.paused, 323/2, 0 + (323/2 - 100), 0, 100, "A", false, 0⟩ ∧
    (handle_pause_request (323/2) 1
        ⟨[(1, ⟨TimerState.tracking, 100, 0, 0, 100, "A", false, 0⟩)], true,
          ⟨[⟨1, "A", none, none⟩], [], []⟩⟩).store.time_entries =
      [] ++ (if (1 : ℚ) ≤ 323/2 - 100 then
          [⟨1, ⌊(323/2 : ℚ) - 100⌋, "work", some 100⟩] else [])) := by
  refine ⟨⟨by decide, by decide⟩, ?_⟩
  exact handle_pause_request_spec
    ⟨[(1, ⟨TimerState.tracking, 100, 0, 0, 100, "A", false, 0⟩)], true,
      ⟨[⟨1, "A", none, none⟩], [], []⟩⟩ (323/2) 1
    ⟨TimerState.tracking, 100, 0, 0, 100, "A", false, 0⟩ (by decide) rfl (by decide)

/-- C1: end-to-end countdown scenario.  Activity 1 ("Reading") has two prior
entries of 600 and 900 seconds, so `calculate_average_duration` returns 750;
starting a countdown at t = 1000 captures `target_duration = 750` (and
`session_id = 1000`); the tick at t = 1800 (800 uninterrupted TRACKING
seconds) reports `remaining = 750 - 800 = -50`, an overrun of 50 seconds; and
ending with the final interval persisted appends exactly one `work` entry of
800 seconds carrying the session id, with a final session work total of 800. -/
theorem countdown_end_to_end :
    calculate_average_duration
      ⟨[⟨1, "Reading", none, none⟩],
        [⟨1, 600, "work", none⟩, ⟨1, 900, "work", none⟩], []⟩ 1 = 750 ∧
    (start_selected_countdowns 1000 [(1, "Reading")]
        ⟨[], false, ⟨[⟨1, "Reading", none, none⟩],
          [⟨1, 600, "work", none⟩, ⟨1, 900, "work", none⟩], []⟩⟩).state.active =
      [(1, ⟨TimerState.tracking, 1000, 0, 0, 1000, "Reading", true, 750⟩)] ∧
    (update_timer 1800 (start_selected_countdowns 1000 [(1, "Reading")]
        ⟨[], false, ⟨[⟨1, "Reading", none, none⟩],
          [⟨1, 600, "work", none⟩, ⟨1, 900, "work", none⟩], []⟩⟩).state).2 =
      [(1, TickInfo.countdown (-50) true 50 800)] ∧
    (stop_single_task 1800 1 true (start_selected_countdowns 1000 [(1, "Reading")]
        ⟨[], false, ⟨[⟨1, "Reading", none, none⟩],
          [⟨1, 600, "work", none⟩, ⟨1, 900, "work", none⟩], []⟩⟩).state).state.store.time_entries
      = [⟨1, 600, "work", none⟩, ⟨1, 900, "work", none⟩, ⟨1, 800, "work", some 1000⟩] ∧
    (stop_single_task 1800 1 true (start_selected_countdowns 1000 [(1, "Reading")]
        ⟨[], false, ⟨[⟨1, "Reading", none, none⟩],
          [⟨1, 600, "work", none⟩, ⟨1, 900, "work", none⟩], []⟩⟩).state).final_total_session_work_sec
      = 800 ∧
    (stop_single_task 1800 1 true (start_selected_countdowns 1000 [(1, "Reading")]
        ⟨[], false, ⟨[⟨1, "Reading", none, none⟩],
          [⟨1, 600, "work", none⟩, ⟨1, 900, "work", none⟩], []⟩⟩).state).state.active = [] := by
  have havg : calculate_average_duration
      ⟨[⟨1, "Reading", none, none⟩],
        [⟨1, 600, "work", none⟩, ⟨1, 900, "work", none⟩], []⟩ 1 = 750 := by
    norm_num [calculate_average_duration, get_durations]
    decide
  have htr : ratTrunc 750 = 750 := by norm_num [ratTrunc]
  refine ⟨havg, ?_, ?_, ?_, ?_, ?_⟩
  all_goals
    norm_num [start_selected_countdowns, startCountdownsLoop, lookupTask, havg, htr,
      update_timer, tickInfoFor, stop_single_task, removeTask, add_time_entry,
      get_activity_habit_type, ratTrunc, List.find?]

/-- C4 (counterexample): the Habit Completion Bridge is NOT invoked on every
`end` with `persistFinalInterval = true` of a habit-configured activity:
ending a habit session that accumulated no work (started and ended at the same
instant) skips the bridge, because `stop_single_task` additionally requires
the final work total to be at least one second. -/
theorem habit_bridge_skipped_counterexample :
    get_activity_habit_type ⟨[⟨1, "H", none, some 1⟩], [], []⟩ 1 = some 1 ∧
    (stop_single_task 1000 1 true
      ⟨[(1, ⟨TimerState.tracking, 1000, 0, 0, 1000, "H", false, 0⟩)], true,
        ⟨[⟨1, "H", none, some 1⟩], [], []⟩⟩).habit_call = none := by
  constructor
  · decide
  · norm_num [stop_single_task, lookupTask, removeTask, ratTrunc,
      get_activity_habit_type, List.find?, add_time_entry]

/-- C4 (amended): per `end`, the Habit Completion Bridge is invoked at most
once, namely exactly when the final interval was persisted
(`persistFinalInterval = true`), the activity is configured as a habit, and
the session's final work total (the accumulator with the final work interval
already folded in when the task was still TRACKING) truncates to at least one
second; the value passed is that final total.  It is never invoked when the
session ends with `persistFinalInterval = false`. -/
theorem habit_bridge_invocation (st : AppState) (now : ℚ) (aid : Nat)
    (save_entry : Bool) (task : TrackingTask)
    (hlook : lookupTask aid st.active = some task) :
    (stop_single_task now aid save_entry st).final_total_session_work_sec =
      (if save_entry ∧ task.state = TimerState.tracking then
        task.total_session_work_sec + (now - task.current_interval_start_time)
      else task.total_session_work_sec) ∧
    (stop_single_task now aid save_entry st).habit_call =
      (if save_entry ∧
          (get_activity_habit_type st.store aid ≠ none ∧
            get_activity_habit_type st.store aid ≠ some 0) ∧
          1 ≤ ratTrunc ((stop_single_task now aid save_entry st).final_total_session_work_sec)
        then some (aid,
          ratTrunc ((stop_single_task now aid save_entry st).final_total_session_work_sec))
        else none) ∧
    (save_entry = false → (stop_single_task now aid save_entry st).habit_call = none) := by
  unfold stop_single_task
  rw [hlook]
  refine ⟨rfl, rfl, ?_⟩
  intro hsave
  subst hsave
  simp

/-- C4 (witness for the amended theorem): a habit session with 10 accumulated
work seconds ended while TRACKING 5 seconds into the final interval invokes
the bridge with the folded total of 15 seconds. -/
theorem habit_bridge_invocation_witness :
    (stop_single_task 1005 1 true
      ⟨[(1, ⟨TimerState.tracking, 1000, 10, 0, 1000, "H", false, 0⟩)], true,
        ⟨[⟨1, "H", none, some 1⟩], [], []⟩⟩).habit_call = some (1, 15) := by
  have h := habit_bridge_invocation
    ⟨[(1, ⟨TimerState.tracking, 1000, 10, 0, 1000, "H", false, 0⟩)], true,
      ⟨[⟨1, "H", none, some 1⟩], [], []⟩⟩ 1005 1 true
    ⟨TimerState.tracking, 1000, 10, 0, 1000, "H", false, 0⟩ (by decide)
  rw [h.2.1, h.1]
  norm_num [get_activity_habit_type, List.find?, ratTrunc]
  intro hcontra
  exact absurd hcontra (by simp)

theorem sessionGroups_nonneg (s : Store) (aid : Nat)
    (hnn : ∀ e ∈ s.time_entries, 0 ≤ e.duration_seconds) :
    ∀ g ∈ sessionGroups s aid, 0 ≤ g.1 ∧ 0 ≤ g.2 := by
  intro g hg
  simp only [sessionGroups, List.mem_map] at hg
  obtain ⟨sid, hsid, rfl⟩ := hg
  constructor <;>
  · apply List.sum_nonneg
    intro x hx
    simp only [List.mem_map] at hx
    obtain ⟨e, he, rfl⟩ := hx
    have he' : e ∈ s.time_entries :=
      (List.mem_filter.mp (List.mem_filter.mp he).1).1
    have := hnn e he'
    split <;> omega

/-- C6: `calculate_average_session_times` implements exactly the
specification's `averageSessionComposition`: it groups the activity's entries
carrying a non-null session id by that id, sums work and break durations per
group, discards every group whose work+break sum is zero (on the non-negative
durations the store holds, the SQL `HAVING work > 0 OR break > 0` filter is
that rule), and returns the mean work, mean break and mean work+break
durations over the remaining groups, or `(0, 0, 0)` when none remain. -/
theorem averageSessionComposition_correct (s : Store) (aid : Nat) (haid : aid ≠ 0)
    (hnn : ∀ e ∈ s.time_entries, 0 ≤ e.duration_seconds) :
    calculate_average_session_times s aid = averageSessionComposition_specModel s aid := by
  have hfilter : (sessionGroups s aid).filter (fun g => decide (0 < g.1 ∨ 0 < g.2)) =
      (sessionGroups s aid).filter (fun g => decide (g.1 + g.2 ≠ 0)) := by
    apply List.filter_congr
    intro g hg
    have h := sessionGroups_nonneg s aid hnn g hg
    rw [decide_eq_decide]
    omega
  unfold calculate_average_session_times averageSessionComposition_specModel
  rw [if_neg haid]
  simp only [hfilter]

/-- C6 (witness): activity 1 has a zero-length session group `(0, 0)` (one
duration-0 work entry) and a session group `(120, 30)`; the zero group is
discarded and the result is average work 120, average break 30, average total
150, matching the spec model. -/
theorem averageSessionComposition_correct_witness :
    ((1 : Nat) ≠ 0 ∧
      (∀ e ∈ (Store.mk [⟨1, "A", none, none⟩]
        [⟨1, 0, "work", some 10⟩, ⟨1, 120, "work", some 20⟩, ⟨1, 30, "break", some 20⟩]
        []).time_entries, 0 ≤ e.duration_seconds)) ∧
    calculate_average_session_times ⟨[⟨1, "A", none, none⟩],
      [⟨1, 0, "work", some 10⟩, ⟨1, 120, "work", some 20⟩, ⟨1, 30, "break", some 20⟩], []⟩ 1 =
      averageSessionComposition_specModel ⟨[⟨1, "A", none, none⟩],
      [⟨1, 0, "work", some 10⟩, ⟨1, 120, "work", some 20⟩, ⟨1, 30, "break", some 20⟩], []⟩ 1 ∧
    calculate_average_session_times ⟨[⟨1, "A", none, none⟩],
      [⟨1, 0, "work", some 10⟩, ⟨1, 120, "work", some 20⟩, ⟨1, 30, "break", some 20⟩], []⟩ 1 =
      (120, 30, 150) := by
  refine ⟨⟨by decide, by decide⟩, ?_, ?_⟩
  · exact averageSessionComposition_correct _ 1 (by decide) (by decide)
  · have hg : sessionGroups ⟨[⟨1, "A", none, none⟩],
        [⟨1, 0, "work", some 10⟩, ⟨1, 120, "work", some 20⟩, ⟨1, 30, "break", some 20⟩], []⟩ 1 =
        [(0, 0), (120, 30)] := by decide
    norm_num [calculate_average_session_times, hg]

theorem lookupTask_append_left {aid : Nat} {l l' : List (Nat × TrackingTask)}
    {t : TrackingTask} (h : lookupTask aid l = some t) :
    lookupTask aid (l ++ l') = some t := by
  induction l with
  | nil => simp [lookupTask] at h
  | cons p rest ih =>
    obtain ⟨b, tb⟩ := p
    rw [lookupTask] at h
    simp only [List.cons_append]
    rw [lookupTask]
    by_cases hb : aid = b
    · rw [if_pos hb] at h ⊢
      exact h
    · rw [if_neg hb] at h ⊢
      exact ih h

theorem startTasksLoop_preserves (now : ℚ) (sel : List (Nat × String))
    (active : List (Nat × TrackingTask)) (skipped : List Nat) (b : Nat)
    (t : TrackingTask) (h : lookupTask b active = some t) :
    lookupTask b (startTasksLoop now sel active skipped).1 = some t := by
  induction sel generalizing active skipped with
  | nil => simpa [startTasksLoop] using h
  | cons hd rest ih =>
    obtain ⟨aid, name⟩ := hd
    rcases hl : lookupTask aid active with _ | t' <;> simp only [startTasksLoop, hl]
    · exact ih _ _ (lookupTask_append_left h)
    · exact ih _ _ h

theorem startCountdownsLoop_preserves (now : ℚ) (s : Store)
    (sel : List (Nat × String)) (active : List (Nat × TrackingTask))
    (skipped : List Nat) (b : Nat) (t : TrackingTask)
    (h : lookupTask b active = some t) :
    lookupTask b (startCountdownsLoop now s sel active skipped).1 = some t := by
  induction sel generalizing active skipped with
  | nil => simpa [startCountdownsLoop] using h
  | cons hd rest ih =>
    obtain ⟨aid, name⟩ := hd
    rcases hl : lookupTask aid active with _ | t' <;> simp only [startCountdownsLoop, hl]
    · by_cases havg : 0 < calculate_average_duration s aid
      · rw [if_pos havg]
        exact ih _ _ (lookupTask_append_left h)
      · rw [if_neg havg]
        exact ih _ _ h
    · exact ih _ _ h

theorem startTasksLoop_skipped_mono (now : ℚ) (sel : List (Nat × String))
    (active : List (Nat × TrackingTask)) (skipped : List Nat) (x : Nat)
    (h : x ∈ skipped) : x ∈ (startTasksLoop now sel active skipped).2 := by
  induction sel generalizing active skipped with
  | nil => simpa [startTasksLoop] using h
  | cons hd rest ih =>
    obtain ⟨aid, name⟩ := hd
    rcases hl : lookupTask aid active with _ | t' <;> simp only [startTasksLoop, hl]
    · exact ih _ _ h
    · exact ih _ _ (List.mem_append.mpr (Or.inl h))

theorem startTasksLoop_skips (now : ℚ) (sel : List (Nat × String))
    (active : List (Nat × TrackingTask)) (skipped : List Nat) (aid : Nat)
    (name : String) (hmem : (aid, name) ∈ sel)
    (hact : lookupTask aid active ≠ none) :
    aid ∈ (startTasksLoop now sel active skipped).2 := by
  induction sel generalizing active skipped with
  | nil => simp at hmem
  | cons hd rest ih =>
    obtain ⟨b, bname⟩ := hd
    rcases List.mem_cons.mp hmem with heq | hmem'
    · injection heq with h1 h2
      subst h1
      rcases hl : lookupTask aid active with _ | t
      · exact absurd hl hact
      · simp only [startTasksLoop, hl]
        exact startTasksLoop_skipped_mono _ _ _ _ aid (by simp)
    · rcases hl : lookupTask b active with _ | t <;> simp only [startTasksLoop, hl]
      · apply ih _ _ hmem'
        rcases hsome : lookupTask aid active with _ | t'
        · exact absurd hsome hact
        · rw [lookupTask_append_left hsome]
          simp
      · exact ih _ _ hmem' hact

theorem startCountdownsLoop_skipped_mono (now : ℚ) (s : Store)
    (sel : List (Nat × String)) (active : List (Nat × TrackingTask))
    (skipped : List Nat) (x : Nat) (h : x ∈ skipped) :
    x ∈ (startCountdownsLoop now s sel active skipped).2 := by
  induction sel generalizing active skipped with
  | nil => simpa [startCountdownsLoop] using h
  | cons hd rest ih =>
    obtain ⟨aid, name⟩ := hd
    rcases hl : lookupTask aid active with _ | t' <;> simp only [startCountdownsLoop, hl]
    · by_cases havg : 0 < calculate_average_duration s aid
      · rw [if_pos havg]
        exact ih _ _ h
      · rw [if_neg havg]
        exact ih _ _ h
    · exact ih _ _ (List.mem_append.mpr (Or.inl h))

theorem startCountdownsLoop_skips (now : ℚ) (s : Store)
    (sel : List (Nat × String)) (active : List (Nat × TrackingTask))
    (skipped : List Nat) (aid : Nat) (name : String) (hmem : (aid, name) ∈ sel)
    (hact : lookupTask aid active ≠ none) :
    aid ∈ (startCountdownsLoop now s sel active skipped).2 := by
  induction sel generalizing active skipped with
  | nil => simp at hmem
  | cons hd rest ih =>
    obtain ⟨b, bname⟩ := hd
    rcases List.mem_cons.mp hmem with heq | hmem'
    · injection heq with h1 h2
      subst h1
      rcases hl : lookupTask aid active with _ | t
      · exact absurd hl hact
      · simp only [startCountdownsLoop, hl]
        exact startCountdownsLoop_skipped_mono _ _ _ _ _ aid (by simp)
    · rcases hl : lookupTask b active with _ | t <;> simp only [startCountdownsLoop, hl]
      · have hpres : lookupTask aid (active ++
            [(b, ⟨TimerState.tracking, now, 0, 0, now, bname, true,
              ratTrunc (calculate_average_duration s b)⟩)]) ≠ none := by
          rcases hsome : lookupTask aid active with _ | t'
          · exact absurd hsome hact
          · rw [lookupTask_append_left hsome]
            simp
        by_cases havg : 0 < calculate_average_duration s b
        · rw [if_pos havg]
          exact ih _ _ hmem' hpres
        · rw [if_neg havg]
          exact ih _ _ hmem' hact
      · exact ih _ _ hmem' hact

theorem mem_updateTask {p' : Nat × TrackingTask} {aid : Nat} {t : TrackingTask}
    {l : List (Nat × TrackingTask)} (h : p' ∈ updateTask aid t l) :
    p' = (aid, t) ∨ p' ∈ l := by
  simp only [updateTask, List.mem_map] at h
  obtain ⟨p, hp, hpe⟩ := h
  by_cases hc : p.1 = aid
  · rw [if_pos hc] at hpe
    exact Or.inl hpe.symm
  · rw [if_neg hc] at hpe
    exact Or.inr (hpe ▸ hp)

theorem homogeneous_updateTask {l : List (Nat × TrackingTask)} {aid : Nat}
    {task task' : TrackingTask} (hl : lookupTask aid l = some task)
    (hflag : task'.is_countdown = task.is_countdown)
    (hh : ∀ p ∈ l, ∀ q ∈ l, p.2.is_countdown = q.2.is_countdown) :
    ∀ p ∈ updateTask aid task' l, ∀ q ∈ updateTask aid task' l,
      p.2.is_countdown = q.2.is_countdown := by
  have hmem := lookupTask_mem hl
  intro p hp q hq
  rcases mem_updateTask hp with hp' | hp' <;> rcases mem_updateTask hq with hq' | hq'
  · rw [hp', hq']
  · rw [hp']
    show task'.is_countdown = q.2.is_countdown
    rw [hflag]
    exact hh _ hmem _ hq'
  · rw [hq']
    show p.2.is_countdown = task'.is_countdown
    rw [hflag]
    exact hh _ hp' _ hmem
  · exact hh _ hp' _ hq'

theorem startTasksLoop_flag (now : ℚ) (sel : List (Nat × String))
    (active : List (Nat × TrackingTask)) (skipped : List Nat)
    (h : ∀ p ∈ active, p.2.is_countdown = false) :
    ∀ p ∈ (startTasksLoop now sel active skipped).1, p.2.is_countdown = false := by
  induction sel generalizing active skipped with
  | nil => simpa [startTasksLoop] using h
  | cons hd rest ih =>
    obtain ⟨aid, name⟩ := hd
    rcases hl : lookupTask aid active with _ | t' <;> simp only [startTasksLoop, hl]
    · apply ih
      intro p hp
      rcases List.mem_append.mp hp with h1 | h1
      · exact h p h1
      · simp only [List.mem_singleton] at h1
        rw [h1]
    · exact ih _ _ h

theorem startCountdownsLoop_flag (now : ℚ) (s : Store)
    (sel : List (Nat × String)) (active : List (Nat × TrackingTask))
    (skipped : List Nat)
    (h : ∀ p ∈ active, p.2.is_countdown = true) :
    ∀ p ∈ (startCountdownsLoop now s sel active skipped).1,
      p.2.is_countdown = true := by
  induction sel generalizing active skipped with
  | nil => simpa [startCountdownsLoop] using h
  | cons hd rest ih =>
    obtain ⟨aid, name⟩ := hd
    rcases hl : lookupTask aid active with _ | t' <;> simp only [startCountdownsLoop, hl]
    · by_cases havg : 0 < calculate_average_duration s aid
      · rw [if_pos havg]
        apply ih
        intro p hp
        rcases List.mem_append.mp hp with h1 | h1
        · exact h p h1
        · simp only [List.mem_singleton] at h1
          rw [h1]
      · rw [if_neg havg]
        exact ih _ _ h
    · exact ih _ _ h

theorem engineStep_homogeneous {st st' : AppState} (h : EngineStep st st')
    (hh : Homogeneous st) : Homogeneous st' := by
  cases h with
  | startTasks now sel st =>
    by_cases hb : st.active.any (fun p => p.2.is_countdown) = true
    · simp only [start_selected_tasks, if_pos hb]
      exact hh
    · by_cases hsel : sel = []
      · simp only [start_selected_tasks, if_neg hb, if_pos hsel]
        exact hh
      · simp only [start_selected_tasks, if_neg hb, if_neg hsel]
        have hflags : ∀ p ∈ st.active, p.2.is_countdown = false := by
          intro p hp
          have hfalse : st.active.any (fun p => p.2.is_countdown) = false :=
            Bool.not_eq_true _ ▸ eq_false_of_ne_true hb
          have := List.any_eq_false.mp hfalse p hp
          simpa using this
        intro p hp q hq
        rw [startTasksLoop_flag now sel st.active [] hflags p hp,
          startTasksLoop_flag now sel st.active [] hflags q hq]
  | startCountdowns now sel st =>
    by_cases hb : st.active.any (fun p => !p.2.is_countdown) = true
    · simp only [start_selected_countdowns, if_pos hb]
      exact hh
    · by_cases hsel : sel = []
      · simp only [start_selected_countdowns, if_neg hb, if_pos hsel]
        exact hh
      · simp only [start_selected_countdowns, if_neg hb, if_neg hsel]
        have hflags : ∀ p ∈ st.active, p.2.is_countdown = true := by
          intro p hp
          have hfalse : st.active.any (fun p => !p.2.is_countdown) = false :=
            eq_false_of_ne_true hb
          have := List.any_eq_false.mp hfalse p hp
          simpa using this
        intro p hp q hq
        rw [startCountdownsLoop_flag now st.store sel st.active [] hflags p hp,
          startCountdownsLoop_flag now st.store sel st.active [] hflags q hq]
  | pauseReq now aid st =>
    unfold handle_pause_request
    rcases hl : lookupTask aid st.active with _ | task
    · exact hh
    · dsimp only
      cases hs : task.state with
      | paused => exact hh
      | tracking =>
        intro p hp q hq
        refine homogeneous_updateTask hl ?_ hh p hp q hq
        rfl
  | resumeReq now aid st =>
    unfold handle_resume_request
    rcases hl : lookupTask aid st.active with _ | task
    · exact hh
    · dsimp only
      cases hs : task.state with
      | tracking => exact hh
      | paused =>
        intro p hp q hq
        refine homogeneous_updateTask hl ?_ hh p hp q hq
        rfl
  | stopTask now aid save_entry st =>
    unfold stop_single_task
    rcases hl : lookupTask aid st.active with _ | task
    · exact hh
    · dsimp only
      intro p hp q hq
      exact hh p (List.mem_of_mem_filter hp) q (List.mem_of_mem_filter hq)
  | tick now st =>
    unfold update_timer
    by_cases h1 : st.qtimer_active = false
    · simp only [if_pos h1]
      exact hh
    · simp only [if_neg h1]
      by_cases h2 : st.active = []
      · simp only [if_pos h2]
        exact hh
      · simp only [if_neg h2]
        exact hh
  | storeEdit s' st =>
    exact hh

theorem reachable_homogeneous {st : AppState} (h : ReachableState st) :
    Homogeneous st := by
  obtain ⟨s0, hsteps⟩ := h
  induction hsteps with
  | refl =>
    intro p hp q hq
    simp [initState] at hp
  | tail hsteps hstep ih => exact engineStep_homogeneous hstep ih

/-- C5: `start` is a no-op with a conflict signal whenever a task already
exists for the activity or the requested mode conflicts with the mode of the
currently active tasks: while any countdown is active, `start_selected_tasks`
returns the state unchanged with the "Timer Busy" warning (and symmetrically
for `start_selected_countdowns` while any plain-work task is active); every
already-active task's entire record (state, accumulators, session id) is left
unchanged by both start operations, and an activity that is requested while
already running is reported in the skip log; consequently every reachable
application state has all concurrently active tasks homogeneous in mode. -/
theorem start_conflict_noop_and_homogeneity (now : ℚ) (sel : List (Nat × String))
    (st : AppState) (aid : Nat) (t : TrackingTask) :
    (st.active.any (fun p => p.2.is_countdown) = true →
      start_selected_tasks now sel st = ⟨st, true, []⟩) ∧
    (st.active.any (fun p => !p.2.is_countdown) = true →
      start_selected_countdowns now sel st = ⟨st, true, []⟩) ∧
    (lookupTask aid st.active = some t →
      lookupTask aid (start_selected_tasks now sel st).state.active = some t ∧
      lookupTask aid (start_selected_countdowns now sel st).state.active = some t) ∧
    (lookupTask aid st.active = some t →
      st.active.any (fun p => p.2.is_countdown) = false →
      ∀ name, (aid, name) ∈ sel →
        aid ∈ (start_selected_tasks now sel st).skipped_existing) ∧
    (lookupTask aid st.active = some t →
      st.active.any (fun p => !p.2.is_countdown) = false →
      ∀ name, (aid, name) ∈ sel →
        aid ∈ (start_selected_countdowns now sel st).skipped_existing) ∧
    (∀ st' : AppState, ReachableState st' → Homogeneous st') := by
  refine ⟨?_, ?_, ?_, ?_, ?_, ?_⟩
  · intro hb
    simp only [start_selected_tasks, if_pos hb]
  · intro hb
    simp only [start_selected_countdowns, if_pos hb]
  · intro hl
    constructor
    · unfold start_selected_tasks
      by_cases hb : st.active.any (fun p => p.2.is_countdown) = true
      · rw [if_pos hb]
        exact hl
      · rw [if_neg hb]
        by_cases hsel : sel = []
        · rw [if_pos hsel]
          exact hl
        · rw [if_neg hsel]
          exact startTasksLoop_preserves now sel st.active [] aid t hl
    · unfold start_selected_countdowns
      by_cases hb : st.active.any (fun p => !p.2.is_countdown) = true
      · rw [if_pos hb]
        exact hl
      · rw [if_neg hb]
        by_cases hsel : sel = []
        · rw [if_pos hsel]
          exact hl
        · rw [if_neg hsel]
          exact startCountdownsLoop_preserves now st.store sel st.active [] aid t hl
  · intro hl hquiet name hmem
    have hsel : sel ≠ [] := by
      intro he
      rw [he] at hmem
      simp at hmem
    unfold start_selected_tasks
    rw [if_neg (by simp [hquiet]), if_neg hsel]
    exact startTasksLoop_skips now sel st.active [] aid name hmem (by simp [hl])
  · intro hl hquiet name hmem
    have hsel : sel ≠ [] := by
      intro he
      rw [he] at hmem
      simp at hmem
    unfold start_selected_countdowns
    rw [if_neg (by simp [hquiet]), if_neg hsel]
    exact startCountdownsLoop_skips now st.store sel st.active [] aid name hmem (by simp [hl])
  · intro st' hreach
    exact reachable_homogeneous hreach

/-- C5 (witness): with a countdown task active on activity 2, a work-task
start request for activity 1 is refused and changes nothing; the already
running activity 2 keeps its record; and the startup state is homogeneous. -/
theorem start_conflict_noop_and_homogeneity_witness :
    (([((2 : Nat), TrackingTask.mk TimerState.tracking 0 0 0 0 "B" true 300)].any
        (fun p => p.2.is_countdown)) = true ∧
      lookupTask 2 [((2 : Nat), TrackingTask.mk TimerState.tracking 0 0 0 0 "B" true 300)] =
        some (TrackingTask.mk TimerState.tracking 0 0 0 0 "B" true 300)) ∧
    start_selected_tasks 5 [(1, "A")]
        ⟨[(2, ⟨TimerState.tracking, 0, 0, 0, 0, "B", true, 300⟩)], true, ⟨[], [], []⟩⟩ =
      ⟨⟨[(2, ⟨TimerState.tracking, 0, 0, 0, 0, "B", true, 300⟩)], true, ⟨[], [], []⟩⟩,
        true, []⟩ ∧
    Homogeneous (initState ⟨[], [], []⟩) := by
  refine ⟨⟨by decide, by decide⟩, ?_, ?_⟩
  · exact (start_conflict_noop_and_homogeneity 5 [(1, "A")]
      ⟨[(2, ⟨TimerState.tracking, 0, 0, 0, 0, "B", true, 300⟩)], true, ⟨[], [], []⟩⟩ 2
      ⟨TimerState.tracking, 0, 0, 0, 0, "B", true, 300⟩).1 (by decide)
  · exact (start_conflict_noop_and_homogeneity 5 [(1, "A")]
      ⟨[(2, ⟨TimerState.tracking, 0, 0, 0, 0, "B", true, 300⟩)], true, ⟨[], [], []⟩⟩ 2
      ⟨TimerState.tracking, 0, 0, 0, 0, "B", true, 300⟩).2.2.2.2.2
      (initState ⟨[], [], []⟩) ⟨⟨[], [], []⟩, Relation.ReflTransGen.refl⟩

theorem bfsGo_nil (acts : List Activity) (visited : List Nat) :
    bfsGo acts [] visited = visited := by
  rw [bfsGo]

theorem bfsGo_cons_mem (acts : List Activity) (q : Nat) (rest visited : List Nat)
    (hq : q ∈ visited) :
    bfsGo acts (q :: rest) visited = bfsGo acts rest visited := by
  rw [bfsGo, if_pos hq]

theorem bfsGo_cons_new (acts : List Activity) (q : Nat) (rest visited : List Nat)
    (hq : q ∉ visited) :
    bfsGo acts (q :: rest) visited =
      bfsGo acts (rest ++ (children_ids acts q).filter (fun c => decide (c ∉ q :: visited)))
        (q :: visited) := by
  rw [bfsGo, if_neg hq]

theorem bfsGo_sound (acts : List Activity) (queue visited : List Nat) :
    ∀ x ∈ bfsGo acts queue visited,
      x ∈ visited ∨ ∃ q ∈ queue, reaches acts q x := by
  induction queue, visited using bfsGo.induct acts with
  | case1 visited =>
    intro x hx
    rw [bfsGo_nil] at hx
    exact Or.inl hx
  | case2 visited q rest hq ih =>
    intro x hx
    rw [bfsGo_cons_mem acts q rest visited hq] at hx
    rcases ih x hx with h | ⟨y, hy, hr⟩
    · exact Or.inl h
    · exact Or.inr ⟨y, List.mem_cons_of_mem _ hy, hr⟩
  | case3 visited q rest hq ih =>
    intro x hx
    rw [bfsGo_cons_new acts q rest visited hq] at hx
    rcases ih x hx with h | ⟨y, hy, hr⟩
    · rcases List.mem_cons.mp h with rfl | h'
      · exact Or.inr ⟨x, List.mem_cons_self _ _, Relation.ReflTransGen.refl⟩
      · exact Or.inl h'
    · rcases List.mem_append.mp hy with h' | h'
      · exact Or.inr ⟨y, List.mem_cons_of_mem _ h', hr⟩
      · have hyc : childRel acts q y := List.mem_of_mem_filter h'
        exact Or.inr ⟨q, List.mem_cons_self _ _, Relation.ReflTransGen.head hyc hr⟩

theorem bfsGo_subset (acts : List Activity) (queue visited : List Nat) :
    (∀ x ∈ visited, x ∈ bfsGo acts queue visited) ∧
    (∀ x ∈ queue, x ∈ bfsGo acts queue visited) := by
  induction queue, visited using bfsGo.induct acts with
  | case1 visited =>
    rw [bfsGo_nil]
    exact ⟨fun x hx => hx, fun x hx => absurd hx (List.not_mem_nil x)⟩
  | case2 visited q rest hq ih =>
    rw [bfsGo_cons_mem acts q rest visited hq]
    refine ⟨ih.1, ?_⟩
    intro x hx
    rcases List.mem_cons.mp hx with rfl | h'
    · exact ih.1 x hq
    · exact ih.2 x h'
  | case3 visited q rest hq ih =>
    rw [bfsGo_cons_new acts q rest visited hq]
    constructor
    · intro x hx
      exact ih.1 x (List.mem_cons_of_mem _ hx)
    · intro x hx
      rcases List.mem_cons.mp hx with rfl | h'
      · exact ih.1 x (List.mem_cons_self _ _)
      · exact ih.2 x (List.mem_append.mpr (Or.inl h'))

theorem bfsGo_closed (acts : List Activity) (queue visited : List Nat)
    (hinv : ∀ v ∈ visited, ∀ c, childRel acts v c → c ∈ visited ∨ c ∈ queue) :
    ∀ v ∈ bfsGo acts queue visited, ∀ c, childRel acts v c →
      c ∈ bfsGo acts queue visited := by
  induction queue, visited using bfsGo.induct acts with
  | case1 visited =>
    rw [bfsGo_nil]
    intro v hv c hc
    rcases hinv v hv c hc with h | h
    · exact h
    · exact absurd h (List.not_mem_nil c)
  | case2 visited q rest hq ih =>
    rw [bfsGo_cons_mem acts q rest visited hq]
    apply ih
    intro v hv c hc
    rcases hinv v hv c hc with h | h
    · exact Or.inl h
    · rcases List.mem_cons.mp h with rfl | h'
      · exact Or.inl hq
      · exact Or.inr h'
  | case3 visited q rest hq ih =>
    rw [bfsGo_cons_new acts q rest visited hq]
    apply ih
    intro v hv c hc
    rcases List.mem_cons.mp hv with rfl | hv'
    · by_cases hcq : c ∈ v :: visited
      · exact Or.inl hcq
      · refine Or.inr (List.mem_append.mpr (Or.inr ?_))
        refine List.mem_filter.mpr ⟨hc, ?_⟩
        simpa using hcq
    · rcases hinv v hv' c hc with h | h
      · exact Or.inl (List.mem_cons_of_mem _ h)
      · rcases List.mem_cons.mp h with rfl | h'
        · exact Or.inl (List.mem_cons_self _ _)
        · exact Or.inr (List.mem_append.mpr (Or.inl h'))

theorem mem_get_descendant_iff (s : Store) (A x : Nat) :
    x ∈ get_descendant_activity_ids s A ↔ reaches s.activities A x := by
  constructor
  · intro hx
    rcases bfsGo_sound s.activities [A] [] x hx with h | ⟨q, hq, hr⟩
    · exact absurd h (List.not_mem_nil x)
    · obtain rfl := List.mem_singleton.mp hq
      exact hr
  · intro hr
    induction hr with
    | refl => exact (bfsGo_subset s.activities [A] []).2 A (List.mem_singleton_self A)
    | tail hsteps hstep ih =>
      exact bfsGo_closed s.activities [A] []
        (fun v hv => absurd hv (List.not_mem_nil v)) _ ih _ hstep

theorem childRel_parent_unique {acts : List Activity}
    (hnodup : (acts.map (fun a => a.id)).Nodup) {a a' b : Nat}
    (h1 : childRel acts a b) (h2 : childRel acts a' b) : a = a' := by
  simp only [childRel, children_ids, List.mem_map, List.mem_filter,
    decide_eq_true_eq] at h1 h2
  obtain ⟨r1, ⟨hr1, hp1⟩, hid1⟩ := h1
  obtain ⟨r2, ⟨hr2, hp2⟩, hid2⟩ := h2
  have hr12 : r1 = r2 :=
    List.inj_on_of_nodup_map hnodup hr1 hr2 (by rw [hid1, hid2])
  rw [hr12] at hp1
  rw [hp1] at hp2
  exact Option.some.injEq _ _ ▸ hp2

theorem childRel_rank_lt {acts : List Activity} {rank : Nat → Nat}
    (hr : rankDescends acts rank = true) {a b : Nat} (h : childRel acts a b) :
    rank a < rank b := by
  simp only [childRel, children_ids, List.mem_map, List.mem_filter,
    decide_eq_true_eq] at h
  obtain ⟨r, ⟨hrm, hp⟩, hid⟩ := h
  have hall := List.all_eq_true.mp hr r hrm
  rw [hp] at hall
  simp only [decide_eq_true_eq] at hall
  rw [← hid]
  exact hall

theorem transGen_rank_lt {acts : List Activity} {rank : Nat → Nat}
    (hr : rankDescends acts rank = true) {a b : Nat}
    (h : Relation.TransGen (childRel acts) a b) : rank a < rank b := by
  induction h with
  | single h1 => exact childRel_rank_lt hr h1
  | tail hsteps hstep ih => exact lt_trans ih (childRel_rank_lt hr hstep)

theorem acyclic_of_rankDescends {acts : List Activity} {rank : Nat → Nat}
    (hr : rankDescends acts rank = true) : AcyclicActivities acts := by
  intro x hx
  exact lt_irrefl _ (transGen_rank_lt hr hx)

theorem reaches_comparable {acts : List Activity}
    (hnodup : (acts.map (fun a => a.id)).Nodup) {u v x : Nat}
    (hu : reaches acts u x) :
    reaches acts v x → reaches acts u v ∨ reaches acts v u := by
  induction hu with
  | refl => exact fun hv => Or.inr hv
  | tail hsteps hstep ih =>
    intro hv
    rcases Relation.ReflTransGen.cases_tail hv with heq | ⟨w, hvw, hwc⟩
    · subst heq
      exact Or.inl (Relation.ReflTransGen.tail hsteps hstep)
    · have hwb := childRel_parent_unique hnodup hwc hstep
      rw [hwb] at hvw
      exact ih hvw

theorem not_reaches_back_through_child {acts : List Activity}
    (hacyc : AcyclicActivities acts) {A c : Nat} (hc : childRel acts A c)
    (h : reaches acts c A) : False :=
  hacyc A (Relation.TransGen.head' hc h)

theorem reaches_child_disjoint {acts : List Activity}
    (hnodup : (acts.map (fun a => a.id)).Nodup)
    (hacyc : AcyclicActivities acts) {A c1 c2 x : Nat}
    (h1 : childRel acts A c1) (h2 : childRel acts A c2) (hne : c1 ≠ c2)
    (hr1 : reaches acts c1 x) (hr2 : reaches acts c2 x) : False := by
  have hstep : ∀ d1 d2 : Nat, childRel acts A d1 → childRel acts A d2 → d1 ≠ d2 →
      reaches acts d1 d2 → False := by
    intro d1 d2 hd1 hd2 hdne hreach
    rcases Relation.ReflTransGen.cases_tail hreach with heq | ⟨w, hdw, hwd⟩
    · exact hdne heq.symm
    · have hwA := childRel_parent_unique hnodup hwd hd2
      rw [hwA] at hdw
      exact not_reaches_back_through_child hacyc hd1 hdw
  rcases reaches_comparable hnodup hr1 hr2 with h | h
  · exact hstep c1 c2 h1 h2 hne h
  · exact hstep c2 c1 h2 h1 (Ne.symm hne) h

theorem list_sum_map_filter {α : Type} (l : List α) (p : α → Bool) (f : α → Int) :
    ((l.filter p).map f).sum = (l.map (fun x => if p x then f x else 0)).sum := by
  induction l with
  | nil => rfl
  | cons a rest ih =>
    by_cases hp : p a = true
    · simp [List.filter_cons, hp, ih]
    · simp [List.filter_cons, hp, ih]

theorem list_sum_map_add {α : Type} (l : List α) (f g : α → Int) :
    (l.map (fun x => f x + g x)).sum = (l.map f).sum + (l.map g).sum := by
  induction l with
  | nil => rfl
  | cons a rest ih =>
    simp only [List.map_cons, List.sum_cons, ih]
    ring

theorem list_sum_comm {α β : Type} (l1 : List α) (l2 : List β) (f : α → β → Int) :
    (l1.map (fun a => (l2.map (f a)).sum)).sum =
    (l2.map (fun b => (l1.map (fun a => f a b)).sum)).sum := by
  induction l1 with
  | nil => simp
  | cons a rest ih =>
    simp only [List.map_cons, List.sum_cons, ih, list_sum_map_add]

theorem list_sum_single {l : List Nat} (hnodup : l.Nodup) {c0 : Nat} (hc0 : c0 ∈ l)
    (f : Nat → Int) (hf : ∀ c ∈ l, c ≠ c0 → f c = 0) : (l.map f).sum = f c0 := by
  induction l with
  | nil => simp at hc0
  | cons a rest ih =>
    rcases List.mem_cons.mp hc0 with rfl | h'
    · simp only [List.map_cons, List.sum_cons]
      have hz : (rest.map f).sum = 0 := by
        apply List.sum_eq_zero
        intro x hx
        simp only [List.mem_map] at hx
        obtain ⟨c, hc, rfl⟩ := hx
        exact hf c (List.mem_cons_of_mem _ hc)
          (fun he => (List.nodup_cons.mp hnodup).1 (he ▸ hc))
      rw [hz, add_zero]
    · simp only [List.map_cons, List.sum_cons]
      have ha : f a = 0 := by
        apply hf a (List.mem_cons_self _ _)
        intro he
        exact (List.nodup_cons.mp hnodup).1 (he ▸ h')
      rw [ha, ih (List.nodup_cons.mp hnodup).2 h'
        (fun c hc hne => hf c (List.mem_cons_of_mem _ hc) hne), zero_add]

theorem children_ids_nodup {acts : List Activity}
    (hnodup : (acts.map (fun a => a.id)).Nodup) (p : Nat) :
    (children_ids acts p).Nodup := by
  have hsub : ((acts.filter (fun a => decide (a.parent_id = some p))).map
      (fun a => a.id)).Sublist (acts.map (fun a => a.id)) :=
    (List.filter_sublist acts).map (fun a => a.id)
  exact hnodup.sublist hsub

theorem mem_children_ids_of_childRel {acts : List Activity} {a c : Nat}
    (h : childRel acts a c) : c ∈ children_ids acts a := h

theorem children_ids_mem_ids {acts : List Activity} {p c : Nat}
    (h : c ∈ children_ids acts p) : c ∈ acts.map (fun a => a.id) := by
  simp only [children_ids, List.mem_map, List.mem_filter] at h
  obtain ⟨a, ⟨ha, _⟩, rfl⟩ := h
  exact List.mem_map.mpr ⟨a, ha, rfl⟩

theorem descendant_indicator (s : Store)
    (hnodup : (s.activities.map (fun a => a.id)).Nodup)
    (hacyc : AcyclicActivities s.activities) (A y : Nat) (d : Int) :
    (if y ∈ get_descendant_activity_ids s A then d else 0) =
      (if y = A then d else 0) +
      ((children_ids s.activities A).map
        (fun c => if y ∈ get_descendant_activity_ids s c then d else 0)).sum := by
  by_cases hyA : y = A
  · subst hyA
    rw [if_pos ((mem_get_descendant_iff s y y).mpr Relation.ReflTransGen.refl), if_pos rfl]
    have hz : ((children_ids s.activities y).map
        (fun c => if y ∈ get_descendant_activity_ids s c then d else 0)).sum = 0 := by
      apply List.sum_eq_zero
      intro x hx
      simp only [List.mem_map] at hx
      obtain ⟨c, hc, rfl⟩ := hx
      rw [if_neg]
      intro hmem
      exact not_reaches_back_through_child hacyc hc
        ((mem_get_descendant_iff s c y).mp hmem)
    rw [hz, add_zero]
  · rw [if_neg hyA]
    by_cases hAy : reaches s.activities A y
    · rw [if_pos ((mem_get_descendant_iff s A y).mpr hAy)]
      rcases Relation.ReflTransGen.cases_head hAy with heq | ⟨c0, hc0, hc0y⟩
      · exact absurd heq.symm hyA
      · rw [zero_add]
        have := list_sum_single (children_ids_nodup hnodup A)
          (mem_children_ids_of_childRel hc0)
          (fun c => if y ∈ get_descendant_activity_ids s c then d else 0)
          ?_
        · rw [this, if_pos ((mem_get_descendant_iff s c0 y).mpr hc0y)]
        · intro c hc hne
          dsimp only
          rw [if_neg]
          intro hmem
          exact reaches_child_disjoint hnodup hacyc hc hc0 hne
            ((mem_get_descendant_iff s c y).mp hmem) hc0y
    · rw [if_neg (fun hmem => hAy ((mem_get_descendant_iff s A y).mp hmem))]
      have hz : ((children_ids s.activities A).map
          (fun c => if y ∈ get_descendant_activity_ids s c then d else 0)).sum = 0 := by
        apply List.sum_eq_zero
        intro x hx
        simp only [List.mem_map] at hx
        obtain ⟨c, hc, rfl⟩ := hx
        rw [if_neg]
        intro hmem
        exact hAy (Relation.ReflTransGen.head hc
          ((mem_get_descendant_iff s c y).mp hmem))
      rw [hz, add_zero]

/-- C7: recursive consistency of branch totals.  In an acyclic hierarchy with
distinct (non-zero) activity ids, `totalForBranch(A)` — the sum of
`duration_seconds` over entries whose activity lies in `descendants(A)`, `0`
for an empty sum — equals the sum of A's own direct entries' durations
(`get_durations`) plus the sum of `totalForBranch(c)` over A's direct
children `c`. -/
theorem totalForBranch_recursive (s : Store)
    (hnodup : (s.activities.map (fun a => a.id)).Nodup)
    (hnz : ∀ a ∈ s.activities, a.id ≠ 0)
    (hacyc : AcyclicActivities s.activities)
    (A : Nat) (hA : A ∈ s.activities.map (fun a => a.id)) :
    calculate_total_duration_for_activity_branch s A =
      (get_durations s A).sum +
      ((children_ids s.activities A).map
        (fun c => calculate_total_duration_for_activity_branch s c)).sum := by
  have hA0 : A ≠ 0 := by
    obtain ⟨a, ha, hae⟩ := List.mem_map.mp hA
    rw [← hae]
    exact hnz a ha
  have hbranch : ∀ B : Nat, B ≠ 0 →
      calculate_total_duration_for_activity_branch s B =
        (s.time_entries.map (fun e =>
          if e.activity_id ∈ get_descendant_activity_ids s B then
            e.duration_seconds else 0)).sum := by
    intro B hB0
    unfold calculate_total_duration_for_activity_branch
    rw [if_neg hB0]
    have hBmem : B ∈ get_descendant_activity_ids s B :=
      (bfsGo_subset s.activities [B] []).2 B (List.mem_singleton_self B)
    have hne : get_descendant_activity_ids s B ≠ [] := by
      intro he
      rw [he] at hBmem
      exact absurd hBmem (List.not_mem_nil B)
    rw [if_neg hne, list_sum_map_filter]
    simp only [decide_eq_true_eq]
  have hchild0 : ∀ c ∈ children_ids s.activities A, c ≠ 0 := by
    intro c hc
    obtain ⟨a, ha, hae⟩ := List.mem_map.mp (children_ids_mem_ids hc)
    rw [← hae]
    exact hnz a ha
  have hdirect : (get_durations s A).sum =
      (s.time_entries.map (fun e =>
        if e.activity_id = A then e.duration_seconds else 0)).sum := by
    unfold get_durations
    rw [if_neg hA0, list_sum_map_filter]
    simp only [decide_eq_true_eq]
  have hmapeq : (children_ids s.activities A).map
        (fun c => calculate_total_duration_for_activity_branch s c) =
      (children_ids s.activities A).map
        (fun c => (s.time_entries.map (fun e =>
          if e.activity_id ∈ get_descendant_activity_ids s c then
            e.duration_seconds else 0)).sum) :=
    List.map_congr_left (fun c hc => hbranch c (hchild0 c hc))
  rw [hbranch A hA0, hdirect, hmapeq,
    list_sum_comm (children_ids s.activities A) s.time_entries
      (fun c e => if e.activity_id ∈ get_descendant_activity_ids s c then
        e.duration_seconds else 0),
    ← list_sum_map_add]
  apply congrArg List.sum
  apply List.map_congr_left
  intro e he
  exact descendant_indicator s hnodup hacyc A e.activity_id e.duration_seconds

/-- C7 (witness): a three-level hierarchy (1 ← {2, 3}, 2 ← 4) with entries
10, 20, 5, 40: branch total of 1 is 75 = 10 + (60 + 5). -/
theorem totalForBranch_recursive_witness :
    ((List.map (fun a => a.id)
        [Activity.mk 1 "R" none none, Activity.mk 2 "C1" (some 1) none,
          Activity.mk 3 "C2" (some 1) none, Activity.mk 4 "G" (some 2) none]).Nodup ∧
      rankDescends
        [Activity.mk 1 "R" none none, Activity.mk 2 "C1" (some 1) none,
          Activity.mk 3 "C2" (some 1) none, Activity.mk 4 "G" (some 2) none]
        (fun n => n) = true) ∧
    calculate_total_duration_for_activity_branch
      ⟨[⟨1, "R", none, none⟩, ⟨2, "C1", some 1, none⟩, ⟨3, "C2", some 1, none⟩,
          ⟨4, "G", some 2, none⟩],
        [⟨1, 10, "work", none⟩, ⟨2, 20, "work", none⟩, ⟨3, 5, "work", none⟩,
          ⟨4, 40, "work", none⟩], []⟩ 1 =
      (get_durations
        ⟨[⟨1, "R", none, none⟩, ⟨2, "C1", some 1, none⟩, ⟨3, "C2", some 1, none⟩,
            ⟨4, "G", some 2, none⟩],
          [⟨1, 10, "work", none⟩, ⟨2, 20, "work", none⟩, ⟨3, 5, "work", none⟩,
            ⟨4, 40, "work", none⟩], []⟩ 1).sum +
      ((children_ids
          [⟨1, "R", none, none⟩, ⟨2, "C1", some 1, none⟩, ⟨3, "C2", some 1, none⟩,
            ⟨4, "G", some 2, none⟩] 1).map
        (fun c => calculate_total_duration_for_activity_branch
          ⟨[⟨1, "R", none, none⟩, ⟨2, "C1", some 1, none⟩, ⟨3, "C2", some 1, none⟩,
              ⟨4, "G", some 2, none⟩],
            [⟨1, 10, "work", none⟩, ⟨2, 20, "work", none⟩, ⟨3, 5, "work", none⟩,
              ⟨4, 40, "work", none⟩], []⟩ c)).sum := by
  refine ⟨⟨by decide, by decide⟩, ?_⟩
  exact totalForBranch_recursive
    ⟨[⟨1, "R", none, none⟩, ⟨2, "C1", some 1, none⟩, ⟨3, "C2", some 1, none⟩,
        ⟨4, "G", some 2, none⟩],
      [⟨1, 10, "work", none⟩, ⟨2, 20, "work", none⟩, ⟨3, 5, "work", none⟩,
        ⟨4, 40, "work", none⟩], []⟩
    (by decide) (by decide)
    (@acyclic_of_rankDescends _ (fun n => n) (by decide))
    1 (by decide)

/-- C8: for every existing activity, `delete_activity` succeeds and removes
the activity together with its entire descendant subtree and every
`TimeEntry`/`HabitLog` row whose activity lies in that subtree (the whole
operation is the single cascading DELETE of the model, committed atomically):
afterwards no activity of the subtree remains and no referencing ledger/habit
row remains, while every row outside the subtree survives.  (`hfkE`/`hfkH`:
the store satisfies the foreign-key integrity SQLite enforces.) -/
theorem delete_activity_cascade (s : Store) (A : Nat)
    (hA : A ∈ s.activities.map (fun a => a.id)) (hA0 : A ≠ 0)
    (hfkE : ∀ e ∈ s.time_entries, e.activity_id ∈ s.activities.map (fun a => a.id))
    (hfkH : ∀ h ∈ s.habit_logs, h.activity_id ∈ s.activities.map (fun a => a.id)) :
    ∃ s', delete_activity s A = some s' ∧
      (∀ a ∈ s'.activities, ¬ reaches s.activities A a.id) ∧
      (∀ e ∈ s'.time_entries, ¬ reaches s.activities A e.activity_id) ∧
      (∀ h ∈ s'.habit_logs, ¬ reaches s.activities A h.activity_id) ∧
      (∀ e ∈ s.time_entries, ¬ reaches s.activities A e.activity_id →
        e ∈ s'.time_entries) ∧
      (∀ h ∈ s.habit_logs, ¬ reaches s.activities A h.activity_id →
        h ∈ s'.habit_logs) := by
  have hAmem : A ∈ get_descendant_activity_ids s A :=
    (bfsGo_subset s.activities [A] []).2 A (List.mem_singleton_self A)
  have hne : get_descendant_activity_ids s A ≠ [] := by
    intro he
    rw [he] at hAmem
    exact absurd hAmem (List.not_mem_nil A)
  have hdel_sub : ∀ x, x ∈ (s.activities.filter
        (fun a => decide (a.id ∈ get_descendant_activity_ids s A))).map
        (fun a => a.id) →
      reaches s.activities A x := by
    intro x hx
    simp only [List.mem_map, List.mem_filter, decide_eq_true_eq] at hx
    obtain ⟨a, ⟨_, haD⟩, rfl⟩ := hx
    exact (mem_get_descendant_iff s A a.id).mp haD
  have hdel_mem : ∀ x, x ∈ s.activities.map (fun a => a.id) →
      reaches s.activities A x →
      x ∈ (s.activities.filter
        (fun a => decide (a.id ∈ get_descendant_activity_ids s A))).map
        (fun a => a.id) := by
    intro x hx hr
    obtain ⟨a, ha, hae⟩ := List.mem_map.mp hx
    refine List.mem_map.mpr ⟨a, List.mem_filter.mpr ⟨ha, ?_⟩, hae⟩
    simp only [decide_eq_true_eq]
    rw [hae]
    exact (mem_get_descendant_iff s A x).mpr hr
  refine ⟨⟨(s.activities.filter
      (fun a => decide (a.id ∉ get_descendant_activity_ids s A))).map
        (fun a => match a.parent_id with
          | some p => if p ∈ (s.activities.filter
              (fun a => decide (a.id ∈ get_descendant_activity_ids s A))).map
                (fun a => a.id) then { a with parent_id := none } else a
          | none => a),
    s.time_entries.filter
      (fun e => decide (e.activity_id ∉ (s.activities.filter
        (fun a => decide (a.id ∈ get_descendant_activity_ids s A))).map
          (fun a => a.id))),
    s.habit_logs.filter
      (fun h => decide (h.activity_id ∉ (s.activities.filter
        (fun a => decide (a.id ∈ get_descendant_activity_ids s A))).map
          (fun a => a.id)))⟩, ?_, ?_, ?_, ?_, ?_, ?_⟩
  · unfold delete_activity
    rw [if_neg hA0, if_neg hne]
  · intro a ha
    simp only [List.mem_map, List.mem_filter, decide_eq_true_eq] at ha
    obtain ⟨a0, ⟨ha0, hnotD⟩, hpe⟩ := ha
    have hid : a.id = a0.id := by
      rw [← hpe]
      cases a0.parent_id <;> simp only []
      split <;> rfl
    rw [hid]
    intro hr
    exact hnotD ((mem_get_descendant_iff s A a0.id).mpr hr)
  · intro e he
    have hmem := List.mem_filter.mp he
    simp only [decide_eq_true_eq] at hmem
    intro hr
    exact hmem.2 (hdel_mem e.activity_id (hfkE e hmem.1) hr)
  · intro h hh
    have hmem := List.mem_filter.mp hh
    simp only [decide_eq_true_eq] at hmem
    intro hr
    exact hmem.2 (hdel_mem h.activity_id (hfkH h hmem.1) hr)
  · intro e he hr
    refine List.mem_filter.mpr ⟨he, ?_⟩
    simp only [decide_eq_true_eq]
    intro hmem
    exact hr (hdel_sub e.activity_id hmem)
  · intro h hh hr
    refine List.mem_filter.mpr ⟨hh, ?_⟩
    simp only [decide_eq_true_eq]
    intro hmem
    exact hr (hdel_sub h.activity_id hmem)

/-- C8 (witness): deleting activity 1 (parent of 2) from a store with an
entry and a habit log on 2 succeeds and leaves no subtree activity behind. -/
theorem delete_activity_cascade_witness :
    ((1 ∈ ([⟨1, "A", none, none⟩, ⟨2, "B", some 1, none⟩] : List Activity).map
        (fun a => a.id)) ∧
      (∀ e ∈ [TimeEntry.mk 2 30 "work" none],
        e.activity_id ∈ ([⟨1, "A", none, none⟩, ⟨2, "B", some 1, none⟩] :
          List Activity).map (fun a => a.id)) ∧
      (∀ h ∈ [HabitLog.mk 2 "2026-01-01" 1],
        h.activity_id ∈ ([⟨1, "A", none, none⟩, ⟨2, "B", some 1, none⟩] :
          List Activity).map (fun a => a.id))) ∧
    (∃ s', delete_activity ⟨[⟨1, "A", none, none⟩, ⟨2, "B", some 1, none⟩],
        [⟨2, 30, "work", none⟩], [⟨2, "2026-01-01", 1⟩]⟩ 1 = some s' ∧
      (∀ a ∈ s'.activities,
        ¬ reaches [⟨1, "A", none, none⟩, ⟨2, "B", some 1, none⟩] 1 a.id) ∧
      (∀ e ∈ s'.time_entries,
        ¬ reaches [⟨1, "A", none, none⟩, ⟨2, "B", some 1, none⟩] 1 e.activity_id) ∧
      (∀ h ∈ s'.habit_logs,
        ¬ reaches [⟨1, "A", none, none⟩, ⟨2, "B", some 1, none⟩] 1 h.activity_id)) := by
  refine ⟨⟨by decide, by decide, by decide⟩, ?_⟩
  obtain ⟨s', h1, h2, h3, h4, _, _⟩ := delete_activity_cascade
    ⟨[⟨1, "A", none, none⟩, ⟨2, "B", some 1, none⟩],
      [⟨2, 30, "work", none⟩], [⟨2, "2026-01-01", 1⟩]⟩ 1
    (by decide) (by decide) (by decide) (by decide)
  exact ⟨s', h1, h2, h3, h4⟩

/-- C9 (counterexample): deleting an id with no activity row is NOT reported
as a NotFoundError: on a store whose only activity is 1, `delete_activity 5`
commits (the BFS descendant set is `{5}`, the DELETE matches no row) and
returns success with the store unchanged — the claimed failure outcome never
happens. -/
theorem delete_activity_missing_id_counterexample :
    (5 ∉ ([⟨1, "A", none, none⟩] : List Activity).map (fun a => a.id)) ∧
    delete_activity ⟨[⟨1, "A", none, none⟩], [⟨1, 3, "work", none⟩], []⟩ 5 =
      some ⟨[⟨1, "A", none, none⟩], [⟨1, 3, "work", none⟩], []⟩ := by
  constructor
  · decide
  · simp [delete_activity, get_descendant_activity_ids, bfsGo, children_ids]

/-- C9 (amended): for an id that identifies no existing activity (in a store
whose parent references are intact), `delete_activity` leaves the hierarchy
and every ledger/habit row unchanged — but reports success (`True`), not a
NotFoundError. -/
theorem delete_activity_missing_id_noop (s : Store) (A : Nat)
    (hmiss : A ∉ s.activities.map (fun a => a.id)) (hA0 : A ≠ 0)
    (hpar : ∀ a ∈ s.activities, ∀ p, a.parent_id = some p →
      p ∈ s.activities.map (fun a => a.id)) :
    delete_activity s A = some s := by
  have hch : children_ids s.activities A = [] := by
    rcases hemp : children_ids s.activities A with _ | ⟨c, rest⟩
    · rfl
    · exfalso
      have hc : c ∈ children_ids s.activities A := by
        rw [hemp]
        exact List.mem_cons_self _ _
      simp only [children_ids, List.mem_map, List.mem_filter, decide_eq_true_eq] at hc
      obtain ⟨a, ⟨ha, hp⟩, _⟩ := hc
      exact hmiss (hpar a ha A hp)
  have hD : get_descendant_activity_ids s A = [A] := by
    show bfsGo s.activities [A] [] = [A]
    rw [bfsGo_cons_new s.activities A [] [] (List.not_mem_nil A), hch]
    simp [bfsGo_nil]
  have hid : ∀ a ∈ s.activities, a.id ≠ A := by
    intro a ha he
    exact hmiss (List.mem_map.mpr ⟨a, ha, he⟩)
  obtain ⟨sacts, sentries, slogs⟩ := s
  unfold delete_activity
  rw [if_neg hA0, hD, if_neg (by simp)]
  have hfil : sacts.filter (fun a => decide (a.id ∈ [A])) = [] := by
    rw [List.filter_eq_nil_iff]
    intro a ha
    simp only [decide_eq_true_eq, List.mem_singleton]
    exact hid a ha
  have hfil2 : sacts.filter (fun a => decide (a.id ∉ [A])) = sacts := by
    rw [List.filter_eq_self]
    intro a ha
    simp only [decide_eq_true_eq, List.mem_singleton]
    exact hid a ha
  simp only at hfil hfil2 ⊢
  rw [hfil, hfil2]
  simp only [List.map_nil, List.not_mem_nil, if_false]
  refine congrArg some ?_
  simp only [Store.mk.injEq]
  refine ⟨?_, ?_, ?_⟩
  · refine Eq.trans (List.map_congr_left ?_) (List.map_id sacts)
    intro a ha
    cases a.parent_id <;> rfl
  · rw [List.filter_eq_self]
    intro e he
    simp
  · rw [List.filter_eq_self]
    intro h hh
    simp

/-- C9 (witness for the amended theorem): deleting the missing id 5 returns
success with the store intact. -/
theorem delete_activity_missing_id_noop_witness :
    ((5 ∉ ([⟨1, "A", none, none⟩] : List Activity).map (fun a => a.id)) ∧
      (5 : Nat) ≠ 0) ∧
    delete_activity ⟨[⟨1, "A", none, none⟩], [⟨1, 3, "work", none⟩], []⟩ 5 =
      some ⟨[⟨1, "A", none, none⟩], [⟨1, 3, "work", none⟩], []⟩ := by
  refine ⟨⟨by decide, by decide⟩, ?_⟩
  exact delete_activity_missing_id_noop
    ⟨[⟨1, "A", none, none⟩], [⟨1, 3, "work", none⟩], []⟩ 5
    (by decide) (by decide) (by decide)
